import Mathlib

/-!
Verification development for the smack-server repository.

Each definition below is a shallow embedding of a function of the Go
source; file and function names are given in the doc comments.  Theorems
named after claim ids settle the corresponding specification claims.
-/

namespace Smack

/-! ## Go string library functions

Structural models of the strings-package functions the embedded code
uses, written over the character list of a String. -/

/-- strings.TrimSpace: drop whitespace from both ends. -/
def goTrimSpace (s : String) : String :=
  String.mk
    (((s.data.dropWhile fun c => c.isWhitespace).reverse.dropWhile
      fun c => c.isWhitespace).reverse)

/-- strings.ToUpper (ASCII-relevant part). -/
def goToUpper (s : String) : String := String.mk (s.data.map Char.toUpper)

/-- strings.ToLower (ASCII-relevant part). -/
def goToLower (s : String) : String := String.mk (s.data.map Char.toLower)

/-- strings.HasPrefix s pre. -/
def goHasPrefix (s pre : String) : Bool := pre.data.isPrefixOf s.data

/-- Accumulator loop for strings.Fields: split around runs of
whitespace, keeping only the non-empty words. -/
def goFieldsAux : List Char → List Char → List String
  | [], cur => if cur.isEmpty then [] else [String.mk cur.reverse]
  | c :: cs, cur =>
    if c.isWhitespace then
      if cur.isEmpty then goFieldsAux cs []
      else String.mk cur.reverse :: goFieldsAux cs []
    else goFieldsAux cs (c :: cur)

/-- strings.Fields. -/
def goFields (s : String) : List String := goFieldsAux s.data []

/-! ## Pagination limit (handlers/messages.go, GetChannelMessages)

The Go code initialises the limit to 50 and only overwrites it when the
query parameter parses and satisfies parsed > 0 && parsed <= 100:

  limit := 50
  if l := r.URL.Query().Get("limit"); l != "" {
    if parsed, err := strconv.Atoi(l); err == nil && parsed > 0 && parsed <= 100 {
      limit = parsed
    }
  }

The argument is the parse result: none models an absent, empty or
non-numeric parameter, some p a successfully parsed integer. -/

def computeLimit (l : Option Int) : Int :=
  match l with
  | none => 50
  | some parsed => if parsed > 0 ∧ parsed ≤ 100 then parsed else 50

/-! ## Custom command lookup (store/sqlite.go, GetCommandByName)

The SQL is

  WHERE name = ? AND ((is_global = FALSE AND created_by = ?) OR is_global = TRUE)
        AND enabled = TRUE
  ORDER BY is_global ASC LIMIT 1

ORDER BY is_global ASC with LIMIT 1 returns a row with minimal is_global
among the matches, i.e. a private (is_global = FALSE) match when one
exists; we realise the tie-break deterministically by table order. -/

structure CustomCommand where
  id : String
  name : String
  isGlobal : Bool
  createdBy : String
  enabled : Bool
deriving DecidableEq

def commandMatches (name userID : String) (c : CustomCommand) : Bool :=
  c.name == name && ((!c.isGlobal && c.createdBy == userID) || c.isGlobal) && c.enabled

def getCommandByName (rows : List CustomCommand) (name userID : String) :
    Option CustomCommand :=
  let candidates := rows.filter (commandMatches name userID)
  match candidates.filter (fun c => !c.isGlobal) with
  | c :: _ => some c
  | [] => candidates.head?

/-! ## Per-app query whitelist (handlers/reactions.go, AppsHandler)

isAllowedQuery normalises with strings.ToUpper(strings.TrimSpace(query))
and tests the six allowed prefixes; Query returns a structured error
object when the query is rejected or when execution fails. -/

def allowedQueryShapes : List String :=
  ["SELECT", "INSERT", "UPDATE", "DELETE", "CREATE TABLE", "CREATE INDEX"]

def isAllowedQuery (query : String) : Bool :=
  let normalized := goToUpper (goTrimSpace query)
  allowedQueryShapes.any (fun p => goHasPrefix normalized p)

def notAllowedMsg : String :=
  "Query type not allowed. Only SELECT, INSERT, UPDATE, DELETE, CREATE TABLE, CREATE INDEX are permitted."

inductive AppQueryResponse where
  | result (columns : List String) (rows : List (List (String × String)))
  | errorObj (msg : String)
deriving DecidableEq

/-- Embedding of AppsHandler.Query after request decoding and membership
checks; exec abstracts getAppDB plus executeQuery, every failure of which
the handler converts into an error object in the JSON response. -/
def appsQuery (query : String)
    (exec : String → Except String (List String × List (List (String × String)))) :
    AppQueryResponse :=
  if isAllowedQuery query then
    match exec query with
    | .ok (cols, rows) => .result cols rows
    | .error e => .errorObj e
  else .errorObj notAllowedMsg

/-! ## Command interpolation (commands/interpolator.go, interpolate)

Templates are modelled pre-tokenised into the placeholder vocabulary the
Go regex and ReplaceAll calls recognise; the value substituted for each
placeholder follows the source exactly.  strings.Fields is goFields. -/

/-- Value of an input.N placeholder: the Go replacement function returns
the empty string when idx >= len(inputParts). -/
def resolveInputIndex (input : String) (idx : Nat) : String :=
  let inputParts := goFields input
  match inputParts.get? idx with
  | some w => w
  | none => ""

/-- Value of the input.rest placeholder: strings.Join(inputParts[1:], " ")
when more than one word, otherwise the empty string. -/
def resolveInputRest (input : String) : String :=
  let inputParts := goFields input
  if inputParts.length > 1 then String.intercalate " " (inputParts.drop 1) else ""

structure InterpolationContext where
  Input : String
  UserID : String
  Username : String
  DisplayName : String
  ChannelID : String
  ChannelName : String

/-- Time values fixed at the single time.Now() call of interpolate. -/
structure ClockValues where
  timestamp : String
  date : String
  datetime : String

inductive TemplateSeg where
  | lit (s : String)
  | inputFull
  | inputIdx (n : Nat)
  | inputRest
  | userId
  | username
  | userDisplayName
  | channelId
  | channelName
  | timestampVar
  | dateVar
  | datetimeVar

/-- Replacement value for one placeholder; encode is the identity for
Interpolate and url.QueryEscape for InterpolateURL (time values and
literals are not encoded, exactly as in the source). -/
def resolveSeg (ctx : InterpolationContext) (clock : ClockValues)
    (encode : String → String) : TemplateSeg → String
  | .lit s => s
  | .inputFull => encode ctx.Input
  | .inputIdx n => encode (resolveInputIndex ctx.Input n)
  | .inputRest => encode (resolveInputRest ctx.Input)
  | .userId => encode ctx.UserID
  | .username => encode ctx.Username
  | .userDisplayName => encode ctx.DisplayName
  | .channelId => encode ctx.ChannelID
  | .channelName => encode ctx.ChannelName
  | .timestampVar => clock.timestamp
  | .dateVar => clock.date
  | .datetimeVar => clock.datetime

def interpolate (template : List TemplateSeg) (ctx : InterpolationContext)
    (clock : ClockValues) (encode : String → String) : String :=
  String.join (template.map (resolveSeg ctx clock encode))

/-! ## The fan-out hub (handlers/bots.go)

A Client carries the owner user id, the bounded send channel (capacity
256) and the app subscription set; the registry h.clients is modelled as
a list whose order stands for the iteration order of the Go map.  The id
field models Go pointer identity. -/

structure Client where
  id : Nat
  userID : String
  send : List String
  apps : List String
deriving DecidableEq

def sendCap : Nat := 256

/-- True when a select with default on client.send would succeed. -/
def hasRoom (c : Client) : Bool := c.send.length < sendCap

def enqueueFrame (c : Client) (frame : String) : Client :=
  { c with send := c.send ++ [frame] }

inductive WSEvent where
  | userOnline (userID : String)
  | userOffline (userID : String)
deriving DecidableEq

/-- Result of one event handled by the Hub.Run coordinator: the new
registry, the UpdateUserStatus calls issued, and the presence events
handed to BroadcastAll. -/
structure HubStep where
  clients : List Client
  statusUpdates : List (String × String)
  broadcasts : List WSEvent
deriving DecidableEq

/-- Hub.Run, register case: isFirstConnection scans the registry before
insertion; UpdateUserStatus(online) is called unconditionally and a
user_online broadcast is emitted only on the first connection. -/
def hubRegister (clients : List Client) (c : Client) : HubStep :=
  let isFirstConnection := !(clients.any (fun x => x.userID == c.userID))
  { clients := clients ++ [c]
    statusUpdates := [(c.userID, "online")]
    broadcasts := if isFirstConnection then [WSEvent.userOnline c.userID] else [] }

/-- Hub.Run, unregister case: the client is removed (and its send channel
closed) only when present; status offline and a user_offline broadcast
happen only when the user has no remaining connection. -/
def hubUnregister (clients : List Client) (c : Client) : HubStep :=
  let wasPresent := clients.any (fun x => x.id == c.id)
  let remaining := if wasPresent then clients.filter (fun x => x.id != c.id) else clients
  let hasOtherConnections := wasPresent && remaining.any (fun x => x.userID == c.userID)
  if wasPresent && !hasOtherConnections then
    { clients := remaining
      statusUpdates := [(c.userID, "offline")]
      broadcasts := [WSEvent.userOffline c.userID] }
  else
    { clients := remaining, statusUpdates := [], broadcasts := [] }

/-- Hub.Run, broadcast case, and Hub.BroadcastToChannel, which sends to
every client unconditionally: every client with room gets the frame; the
clients collected on the stale list are then closed and removed. -/
def broadcastToChannel (clients : List Client) (frame : String) : List Client :=
  clients.filterMap (fun c =>
    if hasRoom c then some (enqueueFrame c frame) else none)

/-- Hub.Run, broadcast case (the path BroadcastAll feeds): identical
fan-out and stale-removal logic over every registered client. -/
def hubBroadcastCase (clients : List Client) (message : String) : List Client :=
  clients.filterMap (fun client =>
    if hasRoom client then some (enqueueFrame client message) else none)

/-- Hub.BroadcastToChannelExcept: a full buffer is skipped (the comment
in the source reads Buffer full, skip) and the client stays registered. -/
def broadcastToChannelExcept (clients : List Client) (exceptId : Nat)
    (frame : String) : List Client :=
  clients.map (fun c =>
    if c.id != exceptId && hasRoom c then enqueueFrame c frame else c)

/-- Hub.SendToUser: only clients of the user are enqueued to; a full one
is closed and deleted inside the loop. -/
def sendToUser (clients : List Client) (uid : String) (frame : String) :
    List Client :=
  clients.filterMap (fun c =>
    if c.userID == uid then
      if hasRoom c then some (enqueueFrame c frame) else none
    else some c)

/-- Hub.BroadcastToApp: only clients subscribed to the app are enqueued
to; the stale ones are closed and removed after the pass. -/
def broadcastToApp (clients : List Client) (appID : String) (frame : String) :
    List Client :=
  clients.filterMap (fun c =>
    if c.apps.contains appID then
      if hasRoom c then some (enqueueFrame c frame) else none
    else some c)

/-! ## AI streaming mediator
(ai client in commands/interpolator.go part two: StreamResponseWithContext;
handlers/messages.go: sendMentionedBotResponse)

The upstream SSE stream is a list of recognised events; other covers
unparseable data lines and unrecognised event types, which the scanner
skips, and doneMarker is the literal DONE sentinel that stops scanning. -/

inductive SSEEvent where
  | delta (s : String)
  | done (s : String)
  | errorEv (msg : String)
  | doneMarker
  | other
deriving DecidableEq

/-- StreamResponseWithContext scan loop: given the pending events and the
current accumulator, returns the (delta, fullText) callback invocations in
order together with the final accumulator, or the typed error that aborts
the stream. -/
def processSSE : List SSEEvent → String → List (String × String) × Except String String
  | [], acc => ([], .ok acc)
  | .delta d :: rest, acc =>
      let acc1 := acc ++ d
      let t := processSSE rest acc1
      ((d, acc1) :: t.1, t.2)
  | .done s :: rest, _ => processSSE rest s
  | .errorEv m :: _, _ => ([], .error m)
  | .doneMarker :: _, acc => ([], .ok acc)
  | .other :: rest, acc => processSSE rest acc

def apologyText : String :=
  "Sorry, I\x27m having trouble connecting right now. Please try again later."

/-- Final content of a run: the stream result, or the fixed apology text
when StreamResponseWithContext returned an error. -/
def finalizedText (sse : List SSEEvent) : String :=
  match (processSSE sse "").2 with
  | .ok t => t
  | .error _ => apologyText

inductive HubEvent where
  | streamStart (msgId : Nat)
  | streamDelta (msgId : Nat) (delta fullText : String)
  | streamEnd (msgId : Nat) (content : String)
  | newMessage (msgId : Nat) (content : String)
deriving DecidableEq

inductive StoreOp where
  | createMessage (msgId : Nat) (content : String)
  | updateContent (msgId : Nat) (content : String)
  | deleteMessage (msgId : Nat)
deriving DecidableEq

structure RunOutput where
  events : List HubEvent
  ops : List StoreOp
deriving DecidableEq

/-- MessageHandler.sendMentionedBotResponse for a run that reached
streaming (placeholder created): emits stream start, the deltas as they
arrive, then either the pass cleanup (follow-up whose finalized text
lowercased and trimmed equals pass: delete the placeholder, stream end
with empty content, no new message) or the normal finalization (persist
the final content, stream end with it, then a new-message event). -/
def sendMentionedBotResponse (isFollowUp : Bool) (msgId : Nat)
    (sse : List SSEEvent) : RunOutput :=
  let streamed := processSSE sse ""
  let finalContent :=
    match streamed.2 with
    | .ok t => t
    | .error _ => apologyText
  let deltaEvents := streamed.1.map (fun p => HubEvent.streamDelta msgId p.1 p.2)
  if isFollowUp && (goTrimSpace (goToLower finalContent) == "pass") then
    { events := HubEvent.streamStart msgId :: deltaEvents ++ [HubEvent.streamEnd msgId ""]
      ops := [StoreOp.createMessage msgId "", StoreOp.deleteMessage msgId] }
  else
    { events := HubEvent.streamStart msgId :: deltaEvents ++
        [HubEvent.streamEnd msgId finalContent, HubEvent.newMessage msgId finalContent]
      ops := [StoreOp.createMessage msgId "", StoreOp.updateContent msgId finalContent] }

/-- Message rows (id, content) under the store operations of a run. -/
def applyStoreOps (ops : List StoreOp) (rows : List (Nat × String)) :
    List (Nat × String) :=
  ops.foldl (fun rs op =>
    match op with
    | .createMessage i c => rs ++ [(i, c)]
    | .updateContent i c => rs.map (fun r => if r.1 == i then (i, c) else r)
    | .deleteMessage i => rs.filter (fun r => r.1 != i)) rows

/-- Concatenation of the delta strings of the callback invocations. -/
def concatDeltas : List (String × String) → String
  | [] => ""
  | p :: ps => p.1 ++ concatDeltas ps

/-! ## Git receive-pack (GitHandler.ReceivePack, syncGitToDatabase,
broadcastCodeUpdate in the unnamed handlers file)

The tree at HEAD is modelled as its entry list with each blob already
resolved; content none stands for a failing BlobObject or Reader call,
which the sync loop skips with continue. -/

structure GoTreeEntry where
  name : String
  content : Option String
deriving DecidableEq

/-- Loop body of syncGitToDatabase: fold over tree.Entries switching on
entry.Name into the html, css and js accumulators (initially empty). -/
def extractAppFiles (entries : List GoTreeEntry) : String × String × String :=
  entries.foldl (fun acc e =>
    match e.content with
    | none => acc
    | some c =>
      if e.name == "index.html" then (c, acc.2.1, acc.2.2)
      else if e.name == "styles.css" then (acc.1, c, acc.2.2)
      else if e.name == "script.js" then (acc.1, acc.2.1, c)
      else acc) ("", "", "")

/-- Content the fold above assigns for one filename: the last entry with
that name whose blob resolved, or the empty string. -/
def lastBlobNamed (entries : List GoTreeEntry) (n : String) : String :=
  entries.foldl (fun acc e =>
    if e.name == n then
      match e.content with
      | some c => c
      | none => acc
    else acc) ""

structure AppRow where
  htmlContent : String
  cssContent : String
  jsContent : String
deriving DecidableEq

inductive GitAction where
  | updateAppCode (html css js : String)
  | appCodeUpdatedBroadcast (html css js : String)
  | replyUnpackOk (refs : List String)
  | replyUnpackError (msg : String)
deriving DecidableEq

/-- Push request state after authentication and authorization: the parsed
command ref names, whether applyPackfile and the ref updates succeed, the
resolved tree at HEAD (none models a failing Head, CommitObject or Tree
call), whether the UpdateAppCode store write inside syncGitToDatabase
succeeds, and whether the GetApp re-read inside broadcastCodeUpdate
succeeds (on failure that helper silently returns without broadcasting
while ReceivePack still sends the success reply). -/
structure PushRequest where
  commands : List String
  packfileOk : Bool
  refUpdateOk : Bool
  headTree : Option (List GoTreeEntry)
  updateAppCodeOk : Bool
  getAppOk : Bool

/-- GitHandler.ReceivePack after authorization: parse commands, apply the
packfile, update refs, syncGitToDatabase (which writes the extracted
triplet to the app-code row), broadcastCodeUpdate (which re-reads the row
with GetApp and broadcasts it, or silently skips the broadcast when that
read fails), then the success status reply; any failed step before the
broadcast sends an unpack error instead.  Returns the emitted actions in
order and the resulting app-code row. -/
def receivePack (req : PushRequest) (row : AppRow) : List GitAction × AppRow :=
  if req.commands.isEmpty then
    ([GitAction.replyUnpackError "No commands in request"], row)
  else if !req.packfileOk then
    ([GitAction.replyUnpackError "Failed to apply packfile"], row)
  else if !req.refUpdateOk then
    ([GitAction.replyUnpackError "Failed to update ref"], row)
  else
    match req.headTree with
    | none => ([GitAction.replyUnpackError "Failed to sync files"], row)
    | some entries =>
      if !req.updateAppCodeOk then
        ([GitAction.replyUnpackError "Failed to sync files"], row)
      else
        let extracted := extractAppFiles entries
        let row2 : AppRow :=
          { htmlContent := extracted.1, cssContent := extracted.2.1, jsContent := extracted.2.2 }
        let broadcastActs :=
          if req.getAppOk then
            [GitAction.appCodeUpdatedBroadcast row2.htmlContent row2.cssContent row2.jsContent]
          else []
        (GitAction.updateAppCode extracted.1 extracted.2.1 extracted.2.2 ::
          broadcastActs ++ [GitAction.replyUnpackOk req.commands], row2)

/-! ## Message deletion (store/sqlite.go, DeleteMessage)

DeleteMessage issues two separate db.Exec statements with no surrounding
transaction: first DELETE FROM messages WHERE thread_id = ?, then DELETE
FROM messages WHERE id = ?.  The reactions table declares message_id
REFERENCES messages(id) ON DELETE CASCADE, but the store opens the
database with a plain sql.Open call, without a foreign-keys DSN
parameter, and never issues a PRAGMA, so SQLite leaves foreign-key
enforcement off and the declared cascade never fires: a DELETE on
messages does not touch the reactions rows.  fail1 and fail2 are the
failure oracles of the two Exec calls (a failed statement leaves the
database unchanged). -/

structure DBMessage where
  id : String
  threadId : Option String
deriving DecidableEq

structure DBReaction where
  id : String
  messageId : String
deriving DecidableEq

structure DB where
  messages : List DBMessage
  reactions : List DBReaction
deriving DecidableEq

/-- One DELETE FROM messages WHERE p statement; with foreign-key
enforcement off the declared cascade is inert, so the reactions table is
untouched. -/
def deleteMessagesWhere (db : DB) (p : DBMessage → Bool) : DB :=
  { messages := db.messages.filter (fun m => !(p m))
    reactions := db.reactions }

/-- Store.DeleteMessage: replies first, then the message itself; the Bool
result is true when an error was returned to the caller. -/
def storeDeleteMessage (db : DB) (msgId : String) (fail1 fail2 : Bool) : DB × Bool :=
  if fail1 then (db, true)
  else
    let db1 := deleteMessagesWhere db (fun m => m.threadId == some msgId)
    if fail2 then (db1, true)
    else (deleteMessagesWhere db1 (fun m => m.id == msgId), false)

/-! # Theorems -/

/-- C7 counterexample: a requested limit of 150 (greater than 100) yields
a window of 50 messages, not the claimed clamped window of 100. -/
theorem C7_counterexample :
    computeLimit (some 150) = 50 ∧ computeLimit (some 150) ≠ 100 := by
  decide

/-- C7 (amended): an absent limit, a limit less than or equal to 0, and a
limit greater than 100 all fall back to the default window of 50; only
values in 1..100 are honoured.  There is no clamp to 100. -/
theorem C7_limit_window (p : Int) :
    computeLimit none = 50 ∧
    (p ≤ 0 → computeLimit (some p) = 50) ∧
    (p > 100 → computeLimit (some p) = 50) ∧
    (0 < p → p ≤ 100 → computeLimit (some p) = p) := by
  refine ⟨rfl, fun h => ?_, fun h => ?_, fun h1 h2 => ?_⟩
  · simp only [computeLimit]
    rw [if_neg (by omega)]
  · simp only [computeLimit]
    rw [if_neg (by omega)]
  · simp only [computeLimit]
    rw [if_pos ⟨h1, h2⟩]

/-- C7 witness: the amended theorem evaluated at 150, -3 and 60. -/
theorem C7_limit_window_witness :
    computeLimit (some 150) = 50 ∧ computeLimit (some (-3)) = 50 ∧
    computeLimit (some 60) = 60 :=
  ⟨(C7_limit_window 150).2.2.1 (by norm_num),
   (C7_limit_window (-3)).2.1 (by norm_num),
   (C7_limit_window 60).2.2.2 (by norm_num) (by norm_num)⟩

/-- C9: a statement is executed (a result object is produced) only when
its trimmed, upper-cased form starts with one of the six allowed shapes;
every rejected statement yields the structured not-allowed error object,
and the handler is a total function, so no exception escapes. -/
theorem C9_query_whitelist (q : String)
    (exec : String → Except String (List String × List (List (String × String)))) :
    (isAllowedQuery q = false → appsQuery q exec = AppQueryResponse.errorObj notAllowedMsg) ∧
    (∀ cols rows, appsQuery q exec = AppQueryResponse.result cols rows →
      isAllowedQuery q = true) := by
  constructor
  · intro h
    simp [appsQuery, h]
  · intro cols rows h
    by_cases hq : isAllowedQuery q
    · exact hq
    · simp only [appsQuery, Bool.not_eq_true] at h hq
      rw [if_neg (by simp [hq])] at h
      exact absurd h (by simp)

/-- C9 witness: a DROP statement is rejected with the error object. -/
theorem C9_query_whitelist_witness :
    appsQuery "DROP TABLE users" (fun _ => Except.error "boom") =
      AppQueryResponse.errorObj notAllowedMsg :=
  (C9_query_whitelist "DROP TABLE users" (fun _ => Except.error "boom")).1 (by decide)

/-- C8: a command returned by name resolution is always enabled, carries
the requested name, is owned by the requesting user when private, and is
private whenever any enabled private command of that name owned by the
user exists in the table (preference over a global match). -/
theorem C8_command_resolution (rows : List CustomCommand) (name userID : String)
    (c : CustomCommand)
    (h : getCommandByName rows name userID = some c) :
    c.enabled = true ∧ c.name = name ∧
    (c.isGlobal = false → c.createdBy = userID) ∧
    ((∃ p ∈ rows, p.name = name ∧ p.isGlobal = false ∧ p.createdBy = userID ∧
        p.enabled = true) → c.isGlobal = false) := by
  have hmain : c ∈ rows.filter (commandMatches name userID) ∧
      ((∃ p ∈ rows, p.name = name ∧ p.isGlobal = false ∧ p.createdBy = userID ∧
          p.enabled = true) → c.isGlobal = false) := by
    simp only [getCommandByName] at h
    rcases hpriv : (rows.filter (commandMatches name userID)).filter
        (fun x => !x.isGlobal) with _ | ⟨c0, tl⟩
    · rw [hpriv] at h
      have hh : (rows.filter (commandMatches name userID)).head? = some c := h
      constructor
      · exact List.mem_of_mem_head? (Option.mem_def.mpr hh)
      · rintro ⟨p, hp, hname, hglob, hby, hen⟩
        exfalso
        have hpc : p ∈ (rows.filter (commandMatches name userID)).filter
            (fun x => !x.isGlobal) := by
          refine List.mem_filter.mpr ⟨List.mem_filter.mpr ⟨hp, ?_⟩, by simp [hglob]⟩
          simp [commandMatches, hname, hglob, hby, hen]
        rw [hpriv] at hpc
        exact absurd hpc (List.not_mem_nil p)
    · rw [hpriv] at h
      have hh : some c0 = some c := h
      simp only [Option.some.injEq] at hh
      have hc0 : c ∈ (rows.filter (commandMatches name userID)).filter
          (fun x => !x.isGlobal) := by
        rw [hpriv, hh]
        exact List.mem_cons_self c tl
      have hflt := List.mem_filter.mp hc0
      exact ⟨hflt.1, fun _ => by simpa using hflt.2⟩
  obtain ⟨hcand, hpref⟩ := hmain
  have hmm := (List.mem_filter.mp hcand).2
  simp only [commandMatches, Bool.and_eq_true, Bool.or_eq_true, beq_iff_eq,
    Bool.not_eq_true'] at hmm
  refine ⟨hmm.2, hmm.1.1, fun hg => ?_, hpref⟩
  rcases hmm.1.2 with hpriv1 | hglob1
  · exact hpriv1.2
  · exact absurd hglob1 (by simp [hg])

/-- C8 witness: with a disabled private, an enabled private and an
enabled global command all named deploy, resolution returns the enabled
private one. -/
theorem C8_command_resolution_witness :
    getCommandByName
      [⟨"1", "deploy", false, "u1", false⟩,
       ⟨"2", "deploy", true, "u2", true⟩,
       ⟨"3", "deploy", false, "u1", true⟩] "deploy" "u1" =
      some ⟨"3", "deploy", false, "u1", true⟩ ∧
    (⟨"3", "deploy", false, "u1", true⟩ : CustomCommand).enabled = true ∧
    (⟨"3", "deploy", false, "u1", true⟩ : CustomCommand).isGlobal = false := by
  have h : getCommandByName
      [⟨"1", "deploy", false, "u1", false⟩,
       ⟨"2", "deploy", true, "u2", true⟩,
       ⟨"3", "deploy", false, "u1", true⟩] "deploy" "u1" =
      some ⟨"3", "deploy", false, "u1", true⟩ := by decide
  have hc := C8_command_resolution
    [⟨"1", "deploy", false, "u1", false⟩,
     ⟨"2", "deploy", true, "u2", true⟩,
     ⟨"3", "deploy", false, "u1", true⟩] "deploy" "u1"
    ⟨"3", "deploy", false, "u1", true⟩ h
  exact ⟨h, hc.1, hc.2.2.2 ⟨⟨"3", "deploy", false, "u1", true⟩, by decide⟩⟩

/-- Helper: String.join distributes over list append. -/
theorem stringJoinAppend (xs ys : List String) :
    String.join (xs ++ ys) = String.join xs ++ String.join ys := by
  apply String.ext
  simp [String.data_join]

/-- C10: interpolation is a total function (it is defined for every
template and context); an input.N placeholder whose index is at least the
number of whitespace-separated words contributes the empty string, and
input.rest contributes the empty string when the input has fewer than two
words.  encode is the identity for Interpolate and url.QueryEscape for
InterpolateURL; both map the empty string to itself. -/
theorem C10_interpolation_total (ctx : InterpolationContext) (clock : ClockValues)
    (encode : String → String) (hencode : encode "" = "")
    (pre post : List TemplateSeg) (n : Nat) :
    (n ≥ (goFields ctx.Input).length →
      interpolate (pre ++ TemplateSeg.inputIdx n :: post) ctx clock encode =
        interpolate pre ctx clock encode ++ interpolate post ctx clock encode) ∧
    ((goFields ctx.Input).length < 2 →
      interpolate (pre ++ TemplateSeg.inputRest :: post) ctx clock encode =
        interpolate pre ctx clock encode ++ interpolate post ctx clock encode) := by
  constructor
  · intro hn
    have hres : resolveSeg ctx clock encode (TemplateSeg.inputIdx n) = "" := by
      simp only [resolveSeg, resolveInputIndex]
      rw [List.get?_eq_none.mpr hn]
      exact hencode
    apply String.ext
    simp [interpolate, hres]
  · intro hn
    have hres : resolveSeg ctx clock encode TemplateSeg.inputRest = "" := by
      simp only [resolveSeg, resolveInputRest]
      rw [if_neg (by omega)]
      exact hencode
    apply String.ext
    simp [interpolate, hres]

/-- C10 witness: the template word {{input.3}} {{input.rest}} end over
the one-word input hi interpolates with both placeholders empty. -/
theorem C10_interpolation_total_witness :
    interpolate
      [TemplateSeg.lit "word ", TemplateSeg.inputIdx 3, TemplateSeg.inputRest,
       TemplateSeg.lit " end"]
      ⟨"hi", "u", "un", "dn", "c", "cn"⟩ ⟨"0", "d", "dt"⟩ id = "word  end" := by
  have h1 := (C10_interpolation_total ⟨"hi", "u", "un", "dn", "c", "cn"⟩
    ⟨"0", "d", "dt"⟩ id rfl [TemplateSeg.lit "word "]
    [TemplateSeg.inputRest, TemplateSeg.lit " end"] 3).1 (by decide)
  have h2 := (C10_interpolation_total ⟨"hi", "u", "un", "dn", "c", "cn"⟩
    ⟨"0", "d", "dt"⟩ id rfl [] [TemplateSeg.lit " end"] 0).2 (by decide)
  rw [show ([TemplateSeg.lit "word ", TemplateSeg.inputIdx 3, TemplateSeg.inputRest,
      TemplateSeg.lit " end"] : List TemplateSeg) =
      [TemplateSeg.lit "word "] ++ TemplateSeg.inputIdx 3 ::
        [TemplateSeg.inputRest, TemplateSeg.lit " end"] from rfl, h1,
    show ([TemplateSeg.inputRest, TemplateSeg.lit " end"] : List TemplateSeg) =
      [] ++ TemplateSeg.inputRest :: [TemplateSeg.lit " end"] from rfl, h2]
  decide

/-- C6 counterexample: on a database holding message m1, its reply m2
and a reaction r1 on m1, a fully successful delete of m1 removes m1 and
the reply but leaves the reaction row in place (the declared cascade is
not enforced because the database is opened without foreign keys); and
when instead the second DELETE statement fails after the first, the
reply is removed while m1 remains, so the removals are not one atomic
scope either. -/
theorem C6_counterexample :
    (storeDeleteMessage
        ⟨[⟨"m1", none⟩, ⟨"m2", some "m1"⟩], [⟨"r1", "m1"⟩]⟩ "m1" false false).1 =
      ⟨[], [⟨"r1", "m1"⟩]⟩ ∧
    (storeDeleteMessage
        ⟨[⟨"m1", none⟩, ⟨"m2", some "m1"⟩], [⟨"r1", "m1"⟩]⟩ "m1" false true).1 =
      ⟨[⟨"m1", none⟩], [⟨"r1", "m1"⟩]⟩ := by
  decide

/-- C6 (amended): deleting M issues two separate DELETE statements with
no transaction.  When both succeed, M and all replies of M are removed
and unrelated messages survive, but no reaction row is removed: the
reactions schema declares ON DELETE CASCADE, yet the store opens SQLite
without enabling foreign keys, so the reactions of M are orphaned, not
deleted.  And when the second statement fails after the first, the
replies are removed while M remains, so the scope is not atomic. -/
theorem C6_delete_cascade (db : DB) (msgId : String) :
    (storeDeleteMessage db msgId false false).2 = false ∧
    (∀ m ∈ ((storeDeleteMessage db msgId false false).1).messages,
       m.id ≠ msgId ∧ m.threadId ≠ some msgId) ∧
    (∀ m ∈ db.messages, m.id ≠ msgId → m.threadId ≠ some msgId →
       m ∈ ((storeDeleteMessage db msgId false false).1).messages) ∧
    ((storeDeleteMessage db msgId false false).1).reactions = db.reactions ∧
    ((storeDeleteMessage db msgId false true).1).messages =
      db.messages.filter (fun m => !(m.threadId == some msgId)) := by
  refine ⟨rfl, ?_, ?_, rfl, rfl⟩
  · intro m hm
    simp only [storeDeleteMessage, if_neg (Bool.false_ne_true),
      deleteMessagesWhere] at hm
    have h1 := List.mem_filter.mp hm
    have h2 := List.mem_filter.mp h1.1
    constructor
    · have := h1.2
      simp only [Bool.not_eq_true'] at this
      simpa using this
    · have := h2.2
      simp only [Bool.not_eq_true'] at this
      simpa using this
  · intro m hm hid hthread
    simp only [storeDeleteMessage, if_neg (Bool.false_ne_true), deleteMessagesWhere]
    refine List.mem_filter.mpr ⟨List.mem_filter.mpr ⟨hm, ?_⟩, ?_⟩
    · simp only [Bool.not_eq_true']
      simpa using hthread
    · simp only [Bool.not_eq_true']
      simpa using hid

/-- C6 witness: the amended theorem applied to a database with message
m1, reply m2, an unrelated message m3 and reactions on m1 and m3; after
a fully successful delete of m1 the unrelated message survives, no
surviving message is m1 or a reply of m1, and both reaction rows are
still present. -/
theorem C6_delete_cascade_witness :
    (storeDeleteMessage
        ⟨[⟨"m1", none⟩, ⟨"m2", some "m1"⟩, ⟨"m3", none⟩],
         [⟨"r1", "m1"⟩, ⟨"r3", "m3"⟩]⟩ "m1" false false).2 = false ∧
    (⟨"m3", none⟩ : DBMessage) ∈
      ((storeDeleteMessage
        ⟨[⟨"m1", none⟩, ⟨"m2", some "m1"⟩, ⟨"m3", none⟩],
         [⟨"r1", "m1"⟩, ⟨"r3", "m3"⟩]⟩ "m1" false false).1).messages ∧
    (∀ m ∈ ((storeDeleteMessage
        ⟨[⟨"m1", none⟩, ⟨"m2", some "m1"⟩, ⟨"m3", none⟩],
         [⟨"r1", "m1"⟩, ⟨"r3", "m3"⟩]⟩ "m1" false false).1).messages,
       m.id ≠ "m1" ∧ m.threadId ≠ some "m1") ∧
    ((storeDeleteMessage
        ⟨[⟨"m1", none⟩, ⟨"m2", some "m1"⟩, ⟨"m3", none⟩],
         [⟨"r1", "m1"⟩, ⟨"r3", "m3"⟩]⟩ "m1" false false).1).reactions =
      [⟨"r1", "m1"⟩, ⟨"r3", "m3"⟩] :=
  ⟨(C6_delete_cascade
      ⟨[⟨"m1", none⟩, ⟨"m2", some "m1"⟩, ⟨"m3", none⟩],
       [⟨"r1", "m1"⟩, ⟨"r3", "m3"⟩]⟩ "m1").1,
   (C6_delete_cascade
      ⟨[⟨"m1", none⟩, ⟨"m2", some "m1"⟩, ⟨"m3", none⟩],
       [⟨"r1", "m1"⟩, ⟨"r3", "m3"⟩]⟩ "m1").2.2.1 ⟨"m3", none⟩ (by decide)
      (by decide) (by decide),
   (C6_delete_cascade
      ⟨[⟨"m1", none⟩, ⟨"m2", some "m1"⟩, ⟨"m3", none⟩],
       [⟨"r1", "m1"⟩, ⟨"r3", "m3"⟩]⟩ "m1").2.1,
   (C6_delete_cascade
      ⟨[⟨"m1", none⟩, ⟨"m2", some "m1"⟩, ⟨"m3", none⟩],
       [⟨"r1", "m1"⟩, ⟨"r3", "m3"⟩]⟩ "m1").2.2.2.1⟩

/-- Helper: the sync fold assigns to each of the three filenames the
content of the last tree entry with that name whose blob resolved. -/
theorem extractAppFiles_eq (entries : List GoTreeEntry) :
    extractAppFiles entries =
      (lastBlobNamed entries "index.html", lastBlobNamed entries "styles.css",
       lastBlobNamed entries "script.js") := by
  suffices h : ∀ (es : List GoTreeEntry) (a b c : String),
      es.foldl (fun acc e =>
        match e.content with
        | none => acc
        | some s =>
          if e.name == "index.html" then (s, acc.2.1, acc.2.2)
          else if e.name == "styles.css" then (acc.1, s, acc.2.2)
          else if e.name == "script.js" then (acc.1, acc.2.1, s)
          else acc) (a, b, c) =
      (es.foldl (fun acc e =>
         if e.name == "index.html" then
           match e.content with
           | some s => s
           | none => acc
         else acc) a,
       es.foldl (fun acc e =>
         if e.name == "styles.css" then
           match e.content with
           | some s => s
           | none => acc
         else acc) b,
       es.foldl (fun acc e =>
         if e.name == "script.js" then
           match e.content with
           | some s => s
           | none => acc
         else acc) c) by
    exact h entries "" "" ""
  intro es
  induction es with
  | nil => intro a b c; rfl
  | cons e es ih =>
    intro a b c
    rcases e with ⟨ename, econtent⟩
    by_cases hn1 : ename = "index.html"
    · subst hn1
      rcases econtent with _ | s
      · exact ih a b c
      · exact ih s b c
    · by_cases hn2 : ename = "styles.css"
      · subst hn2
        rcases econtent with _ | s
        · exact ih a b c
        · exact ih a s c
      · by_cases hn3 : ename = "script.js"
        · subst hn3
          rcases econtent with _ | s
          · exact ih a b c
          · exact ih a b s
        · have e1 : (ename == "index.html") = false := beq_eq_false_iff_ne.mpr hn1
          have e2 : (ename == "styles.css") = false := beq_eq_false_iff_ne.mpr hn2
          have e3 : (ename == "script.js") = false := beq_eq_false_iff_ne.mpr hn3
          rcases econtent with _ | s
          · simp only [List.foldl_cons, e1, e2, e3, Bool.false_eq_true, if_false]
            exact ih a b c
          · simp only [List.foldl_cons, e1, e2, e3, Bool.false_eq_true, if_false]
            exact ih a b c

/-- C5 counterexample: on an accepted push during which the GetApp
re-read inside broadcastCodeUpdate fails, the code still sends the
unpack ok status reply but silently skips the app_code_updated
broadcast, refuting the claim that every accepted push broadcasts the
event before the success reply. -/
theorem C5_counterexample :
    (receivePack
      ⟨["refs/heads/main"], true, true, some [⟨"index.html", some "<p>x</p>"⟩],
       true, false⟩ ⟨"a", "b", "c"⟩).1 =
      [GitAction.updateAppCode "<p>x</p>" "" "",
       GitAction.replyUnpackOk ["refs/heads/main"]] ∧
    (∀ h c j, GitAction.appCodeUpdatedBroadcast h c j ∉
      (receivePack
        ⟨["refs/heads/main"], true, true, some [⟨"index.html", some "<p>x</p>"⟩],
         true, false⟩ ⟨"a", "b", "c"⟩).1) := by
  have heq : (receivePack
      ⟨["refs/heads/main"], true, true, some [⟨"index.html", some "<p>x</p>"⟩],
       true, false⟩ ⟨"a", "b", "c"⟩).1 =
      [GitAction.updateAppCode "<p>x</p>" "" "",
       GitAction.replyUnpackOk ["refs/heads/main"]] := by decide
  refine ⟨heq, ?_⟩
  intro h c j
  rw [heq]
  simp

/-- C5 (amended): for every accepted push (commands parsed, packfile
applied, refs updated, store write successful), receive-pack updates the
app-code row to the blob contents named index.html, styles.css and
script.js in the tree at HEAD before sending the success status reply.
When the GetApp re-read inside broadcastCodeUpdate succeeds, an
app_code_updated event carrying exactly the new triplet is broadcast
between the store update and the success reply; when that re-read fails,
the broadcast is silently skipped and unpack ok is still sent. -/
theorem C5_receivePack_sync (req : PushRequest) (row : AppRow)
    (entries : List GoTreeEntry)
    (h1 : req.commands ≠ []) (h2 : req.packfileOk = true)
    (h3 : req.refUpdateOk = true) (h4 : req.headTree = some entries)
    (h5 : req.updateAppCodeOk = true) :
    (req.getAppOk = true →
      receivePack req row =
        ([GitAction.updateAppCode (lastBlobNamed entries "index.html")
            (lastBlobNamed entries "styles.css") (lastBlobNamed entries "script.js"),
          GitAction.appCodeUpdatedBroadcast (lastBlobNamed entries "index.html")
            (lastBlobNamed entries "styles.css") (lastBlobNamed entries "script.js"),
          GitAction.replyUnpackOk req.commands],
         ⟨lastBlobNamed entries "index.html", lastBlobNamed entries "styles.css",
          lastBlobNamed entries "script.js"⟩)) ∧
    (req.getAppOk = false →
      receivePack req row =
        ([GitAction.updateAppCode (lastBlobNamed entries "index.html")
            (lastBlobNamed entries "styles.css") (lastBlobNamed entries "script.js"),
          GitAction.replyUnpackOk req.commands],
         ⟨lastBlobNamed entries "index.html", lastBlobNamed entries "styles.css",
          lastBlobNamed entries "script.js"⟩)) := by
  have hne : req.commands.isEmpty = false := by
    cases hc : req.commands with
    | nil => exact absurd hc h1
    | cons a l => rfl
  constructor
  · intro hg
    simp [receivePack, hne, h2, h3, h4, h5, hg, extractAppFiles_eq]
  · intro hg
    simp [receivePack, hne, h2, h3, h4, h5, hg, extractAppFiles_eq]

/-- C5 witness: a concrete accepted push whose tree holds the three
files and whose GetApp re-read succeeds; the row and the broadcast both
carry exactly those contents and the success reply lists the pushed
ref. -/
theorem C5_receivePack_sync_witness :
    receivePack
      ⟨["refs/heads/main"], true, true,
       some [⟨"index.html", some "<h1>hi</h1>"⟩,
             ⟨"script.js", some "console.log(1)"⟩,
             ⟨"styles.css", some "body \x7b\x7d"⟩], true, true⟩
      ⟨"oldh", "oldc", "oldj"⟩ =
      ([GitAction.updateAppCode "<h1>hi</h1>" "body \x7b\x7d" "console.log(1)",
        GitAction.appCodeUpdatedBroadcast "<h1>hi</h1>" "body \x7b\x7d" "console.log(1)",
        GitAction.replyUnpackOk ["refs/heads/main"]],
       ⟨"<h1>hi</h1>", "body \x7b\x7d", "console.log(1)"⟩) := by
  rw [(C5_receivePack_sync _ _
    [⟨"index.html", some "<h1>hi</h1>"⟩, ⟨"script.js", some "console.log(1)"⟩,
     ⟨"styles.css", some "body \x7b\x7d"⟩]
    (by decide) rfl rfl rfl rfl).1 rfl]
  decide

/-- C1: on register, a user with zero prior connections gets status
online in the store and exactly one user_online broadcast; a register
for a user that already has a connection broadcasts no presence event.
On unregister of a registered connection, when no connection of that
user remains the status is set offline and exactly one user_offline
broadcast is emitted; when other connections remain, no presence event
is broadcast and no status update is issued. -/
theorem C1_presence_dedup (clients : List Client) (c : Client) :
    ((clients.filter (fun x => x.userID == c.userID)).length = 0 →
      (hubRegister clients c).broadcasts = [WSEvent.userOnline c.userID] ∧
      (hubRegister clients c).statusUpdates = [(c.userID, "online")]) ∧
    ((clients.filter (fun x => x.userID == c.userID)).length > 0 →
      (hubRegister clients c).broadcasts = []) ∧
    (c ∈ clients →
      (clients.filter (fun x => x.id != c.id)).filter
        (fun x => x.userID == c.userID) = [] →
      (hubUnregister clients c).broadcasts = [WSEvent.userOffline c.userID] ∧
      (hubUnregister clients c).statusUpdates = [(c.userID, "offline")]) ∧
    (c ∈ clients →
      (clients.filter (fun x => x.id != c.id)).filter
        (fun x => x.userID == c.userID) ≠ [] →
      (hubUnregister clients c).broadcasts = [] ∧
      (hubUnregister clients c).statusUpdates = []) := by
  refine ⟨fun h => ?_, fun h => ?_, fun hc h => ?_, fun hc h => ?_⟩
  · have hany : clients.any (fun x => x.userID == c.userID) = false := by
      rw [List.any_eq_false]
      intro x hx
      rw [List.length_eq_zero, List.filter_eq_nil_iff] at h
      simp [h x hx]
    constructor <;> simp [hubRegister, hany]
  · have hany : clients.any (fun x => x.userID == c.userID) = true := by
      rw [List.any_eq_true]
      rcases List.exists_mem_of_length_pos h with ⟨x, hx⟩
      have hm := List.mem_filter.mp hx
      exact ⟨x, hm.1, hm.2⟩
    simp [hubRegister, hany]
  · have hwp : clients.any (fun x => x.id == c.id) = true := by
      rw [List.any_eq_true]
      exact ⟨c, hc, by simp⟩
    have hany2 : (clients.filter (fun x => x.id != c.id)).any
        (fun x => x.userID == c.userID) = false := by
      rw [List.any_eq_false]
      intro x hx
      rw [List.filter_eq_nil_iff] at h
      simp [h x hx]
    constructor <;> simp [hubUnregister, hwp, hany2]
  · have hwp : clients.any (fun x => x.id == c.id) = true := by
      rw [List.any_eq_true]
      exact ⟨c, hc, by simp⟩
    have hany2 : (clients.filter (fun x => x.id != c.id)).any
        (fun x => x.userID == c.userID) = true := by
      rw [List.any_eq_true]
      rcases List.exists_mem_of_ne_nil _ h with ⟨x, hx⟩
      have hm := List.mem_filter.mp hx
      exact ⟨x, hm.1, hm.2⟩
    constructor <;> simp [hubUnregister, hwp, hany2]

/-- C1 witness: user u connects twice and disconnects twice: one
user_online on the first connect, nothing on the second connect or the
first disconnect, one user_offline on the last disconnect. -/
theorem C1_presence_dedup_witness :
    (hubRegister [] ⟨1, "u", [], []⟩).broadcasts = [WSEvent.userOnline "u"] ∧
    (hubRegister [⟨1, "u", [], []⟩] ⟨2, "u", [], []⟩).broadcasts = [] ∧
    (hubUnregister [⟨1, "u", [], []⟩, ⟨2, "u", [], []⟩] ⟨2, "u", [], []⟩).broadcasts = [] ∧
    (hubUnregister [⟨1, "u", [], []⟩] ⟨1, "u", [], []⟩).broadcasts =
      [WSEvent.userOffline "u"] :=
  ⟨((C1_presence_dedup [] ⟨1, "u", [], []⟩).1 (by decide)).1,
   (C1_presence_dedup [⟨1, "u", [], []⟩] ⟨2, "u", [], []⟩).2.1 (by decide),
   ((C1_presence_dedup [⟨1, "u", [], []⟩, ⟨2, "u", [], []⟩]
      ⟨2, "u", [], []⟩).2.2.2 (by decide) (by decide)).1,
   ((C1_presence_dedup [⟨1, "u", [], []⟩]
      ⟨1, "u", [], []⟩).2.2.1 (by decide) (by decide)).1⟩

/-- C2 counterexample: BroadcastToChannelExcept is one of the fan-out
operations the claim quantifies over, yet it leaves a connection with a
full outbound queue registered, with its queue unchanged, instead of
removing it. -/
theorem C2_counterexample :
    hasRoom ⟨1, "u", List.replicate sendCap "m", []⟩ = false ∧
    broadcastToChannelExcept [⟨1, "u", List.replicate sendCap "m", []⟩] 0 "f" =
      [⟨1, "u", List.replicate sendCap "m", []⟩] := by
  have hfull : hasRoom ⟨1, "u", List.replicate sendCap "m", []⟩ = false := by
    simp [hasRoom]
  exact ⟨hfull, by simp [broadcastToChannelExcept, hfull]⟩

/-- C2 (amended): enqueue never blocks (each primitive is a total
function of the registry); for broadcast-all (hub broadcast case),
broadcast-to-channel, broadcast-to-app and send-to-user, a connection
whose queue is full when it is enqueued to is removed from the registry
before the operation returns; broadcast-to-channel-except instead skips
a full connection and leaves it registered with its queue unchanged. -/
theorem C2_slow_consumer_eviction (clients : List Client) (c : Client)
    (frame uid appID : String) (exceptId : Nat)
    (hnodup : (clients.map (fun x => x.id)).Nodup)
    (hc : c ∈ clients) (hfull : hasRoom c = false) :
    (∀ x ∈ hubBroadcastCase clients frame, x.id ≠ c.id) ∧
    (∀ x ∈ broadcastToChannel clients frame, x.id ≠ c.id) ∧
    (c.userID = uid → ∀ x ∈ sendToUser clients uid frame, x.id ≠ c.id) ∧
    (c.apps.contains appID = true →
      ∀ x ∈ broadcastToApp clients appID frame, x.id ≠ c.id) ∧
    (c.id ≠ exceptId → c ∈ broadcastToChannelExcept clients exceptId frame) := by
  have hinj := List.inj_on_of_nodup_map hnodup
  refine ⟨?_, ?_, fun huid x hx => ?_, fun happ x hx => ?_, fun hex => ?_⟩
  · intro x hx heq
    rcases List.mem_filterMap.mp hx with ⟨a, ha, hfa⟩
    by_cases hroom : hasRoom a
    · rw [if_pos hroom] at hfa
      have hxa : x = enqueueFrame a frame := by
        exact (Option.some.injEq _ _).mp hfa.symm
      have haid : a.id = c.id := by rw [← heq, hxa]; rfl
      have : a = c := hinj ha hc haid
      rw [this] at hroom
      exact absurd hroom (by simp [hfull])
    · rw [if_neg hroom] at hfa
      exact absurd hfa (by simp)
  · intro x hx heq
    rcases List.mem_filterMap.mp hx with ⟨a, ha, hfa⟩
    by_cases hroom : hasRoom a
    · rw [if_pos hroom] at hfa
      have hxa : x = enqueueFrame a frame := by
        exact (Option.some.injEq _ _).mp hfa.symm
      have haid : a.id = c.id := by rw [← heq, hxa]; rfl
      have : a = c := hinj ha hc haid
      rw [this] at hroom
      exact absurd hroom (by simp [hfull])
    · rw [if_neg hroom] at hfa
      exact absurd hfa (by simp)
  · intro heq
    rcases List.mem_filterMap.mp hx with ⟨a, ha, hfa⟩
    have haid : a.id = c.id := by
      by_cases hu : a.userID == uid
      · rw [if_pos hu] at hfa
        by_cases hroom : hasRoom a
        · rw [if_pos hroom] at hfa
          have hxa : x = enqueueFrame a frame := (Option.some.injEq _ _).mp hfa.symm
          rw [← heq, hxa]; rfl
        · rw [if_neg hroom] at hfa
          exact absurd hfa (by simp)
      · rw [if_neg hu] at hfa
        have hxa : x = a := (Option.some.injEq _ _).mp hfa.symm
        rw [← heq, hxa]
    have hac : a = c := hinj ha hc haid
    subst hac
    by_cases hu : a.userID == uid
    · rw [if_pos hu] at hfa
      rw [if_neg (by simp [hfull])] at hfa
      exact absurd hfa (by simp)
    · exact absurd huid (by simpa using hu)
  · intro heq
    rcases List.mem_filterMap.mp hx with ⟨a, ha, hfa⟩
    have haid : a.id = c.id := by
      by_cases hsub : a.apps.contains appID
      · rw [if_pos hsub] at hfa
        by_cases hroom : hasRoom a
        · rw [if_pos hroom] at hfa
          have hxa : x = enqueueFrame a frame := (Option.some.injEq _ _).mp hfa.symm
          rw [← heq, hxa]; rfl
        · rw [if_neg hroom] at hfa
          exact absurd hfa (by simp)
      · rw [if_neg hsub] at hfa
        have hxa : x = a := (Option.some.injEq _ _).mp hfa.symm
        rw [← heq, hxa]
    have hac : a = c := hinj ha hc haid
    subst hac
    by_cases hsub : a.apps.contains appID
    · rw [if_pos hsub] at hfa
      rw [if_neg (by simp [hfull])] at hfa
      exact absurd hfa (by simp)
    · exact absurd happ (by simpa using hsub)
  · have hfc : (if c.id != exceptId && hasRoom c then enqueueFrame c frame else c) = c := by
      rw [if_neg]
      simp [hfull]
    exact List.mem_map.mpr ⟨c, hc, hfc⟩

/-- C2 witness: in a registry holding a full connection 1 and an empty
connection 2 of the same user and app, every evicting primitive removes
connection 1, while the except-variant keeps it. -/
theorem C2_slow_consumer_eviction_witness :
    (∀ x ∈ hubBroadcastCase
      [⟨1, "u", List.replicate sendCap "m", ["a"]⟩, ⟨2, "u", [], ["a"]⟩] "f",
      x.id ≠ 1) ∧
    (∀ x ∈ sendToUser
      [⟨1, "u", List.replicate sendCap "m", ["a"]⟩, ⟨2, "u", [], ["a"]⟩] "u" "f",
      x.id ≠ 1) ∧
    (⟨1, "u", List.replicate sendCap "m", ["a"]⟩ : Client) ∈ broadcastToChannelExcept
      [⟨1, "u", List.replicate sendCap "m", ["a"]⟩, ⟨2, "u", [], ["a"]⟩] 0 "f" :=
  ⟨(C2_slow_consumer_eviction
      [⟨1, "u", List.replicate sendCap "m", ["a"]⟩, ⟨2, "u", [], ["a"]⟩]
      ⟨1, "u", List.replicate sendCap "m", ["a"]⟩ "f" "u" "a" 0
      (by decide) (List.mem_cons_self _ _) (by simp [hasRoom])).1,
   (C2_slow_consumer_eviction
      [⟨1, "u", List.replicate sendCap "m", ["a"]⟩, ⟨2, "u", [], ["a"]⟩]
      ⟨1, "u", List.replicate sendCap "m", ["a"]⟩ "f" "u" "a" 0
      (by decide) (List.mem_cons_self _ _) (by simp [hasRoom])).2.2.1 rfl,
   (C2_slow_consumer_eviction
      [⟨1, "u", List.replicate sendCap "m", ["a"]⟩, ⟨2, "u", [], ["a"]⟩]
      ⟨1, "u", List.replicate sendCap "m", ["a"]⟩ "f" "u" "a" 0
      (by decide) (List.mem_cons_self _ _) (by simp [hasRoom])).2.2.2.2 (by decide)⟩

/-- Helper: when the stream holds no done event and ends without error,
the final accumulator is the starting accumulator followed by the
concatenation of the emitted deltas. -/
theorem processSSE_ok_concat (sse : List SSEEvent) (acc : String)
    (hnd : ∀ s, SSEEvent.done s ∉ sse) (t : String)
    (h : (processSSE sse acc).2 = Except.ok t) :
    t = acc ++ concatDeltas (processSSE sse acc).1 := by
  induction sse generalizing acc with
  | nil =>
    simp only [processSSE, Except.ok.injEq] at h
    simp [processSSE, concatDeltas, ← h, String.append_empty]
  | cons e rest ih =>
    cases e with
    | delta d =>
      have hnd2 : ∀ s, SSEEvent.done s ∉ rest := fun s hs =>
        hnd s (List.mem_cons_of_mem _ hs)
      have h2 : (processSSE rest (acc ++ d)).2 = Except.ok t := h
      have := ih (acc ++ d) hnd2 h2
      simp only [processSSE, concatDeltas]
      rw [this, String.append_assoc]
    | done s => exact absurd (List.mem_cons_self _ _) (hnd s)
    | errorEv m => exact absurd h (by simp [processSSE])
    | doneMarker =>
      simp only [processSSE, Except.ok.injEq] at h
      simp [processSSE, concatDeltas, ← h, String.append_empty]
    | other =>
      have hnd2 : ∀ s, SSEEvent.done s ∉ rest := fun s hs =>
        hnd s (List.mem_cons_of_mem _ hs)
      exact ih acc hnd2 h

/-- Helper: a stream of deltas and skipped events followed by a single
done event ends ok with the done text, and emits the same callback
invocations as the stream without the done event. -/
theorem processSSE_trailing_done (pre : List SSEEvent) (t0 : String)
    (hpre : ∀ e ∈ pre, (∃ d, e = SSEEvent.delta d) ∨ e = SSEEvent.other)
    (acc : String) :
    (processSSE (pre ++ [SSEEvent.done t0]) acc).2 = Except.ok t0 ∧
    (processSSE (pre ++ [SSEEvent.done t0]) acc).1 = (processSSE pre acc).1 := by
  induction pre generalizing acc with
  | nil => simp [processSSE]
  | cons e rest ih =>
    have hpre2 : ∀ x ∈ rest, (∃ d, x = SSEEvent.delta d) ∨ x = SSEEvent.other :=
      fun x hx => hpre x (List.mem_cons_of_mem _ hx)
    rcases hpre e (List.mem_cons_self _ _) with ⟨d, hd⟩ | ho
    · subst hd
      have := ih hpre2 (acc ++ d)
      refine ⟨this.1, ?_⟩
      show (d, acc ++ d) :: (processSSE (rest ++ [SSEEvent.done t0]) (acc ++ d)).1 =
        (d, acc ++ d) :: (processSSE rest (acc ++ d)).1
      rw [this.2]
    · subst ho
      simpa only [List.cons_append, processSSE] using ih hpre2 acc

/-- C3 (amended): a run whose upstream stream ends without an error
event and which is not a follow-up pass emits exactly one stream-start,
then the deltas in upstream order, then exactly one stream-end whose
content F equals the content persisted in the message row, followed by
the new-message event.  When the stream holds no done event, the
concatenation of the deltas equals F; when the stream is deltas followed
by a final done event, F is the done text, so whenever the concatenation
is a prefix of the done text it is a prefix of F.  (Runs with an
upstream error finalize with the fixed apology text instead, and their
delta concatenation bears no relation to it.) -/
theorem C3_stream_ordering (isFollowUp : Bool) (msgId : Nat)
    (sse : List SSEEvent) (F : String)
    (hok : (processSSE sse "").2 = Except.ok F)
    (hnp : ¬(isFollowUp = true ∧ goTrimSpace (goToLower F) = "pass")) :
    (sendMentionedBotResponse isFollowUp msgId sse).events =
      HubEvent.streamStart msgId ::
        (processSSE sse "").1.map (fun p => HubEvent.streamDelta msgId p.1 p.2) ++
        [HubEvent.streamEnd msgId F, HubEvent.newMessage msgId F] ∧
    (sendMentionedBotResponse isFollowUp msgId sse).ops =
      [StoreOp.createMessage msgId "", StoreOp.updateContent msgId F] ∧
    ((∀ s, SSEEvent.done s ∉ sse) → concatDeltas (processSSE sse "").1 = F) ∧
    (∀ pre t0, sse = pre ++ [SSEEvent.done t0] →
      (∀ e ∈ pre, (∃ d, e = SSEEvent.delta d) ∨ e = SSEEvent.other) →
      F = t0 ∧
      (goHasPrefix t0 (concatDeltas (processSSE sse "").1) = true →
        goHasPrefix F (concatDeltas (processSSE sse "").1) = true)) := by
  have hcond : (isFollowUp && (goTrimSpace (goToLower F) == "pass")) = false := by
    cases hf : isFollowUp with
    | false => rfl
    | true =>
      simp only [Bool.true_and]
      rw [beq_eq_false_iff_ne]
      intro hp
      exact hnp ⟨hf, hp⟩
  refine ⟨?_, ?_, ?_, ?_⟩
  · simp only [sendMentionedBotResponse, hok, hcond, Bool.false_eq_true, if_false]
  · simp only [sendMentionedBotResponse, hok, hcond, Bool.false_eq_true, if_false]
  · intro hnd
    exact ((processSSE_ok_concat sse "" hnd F hok).trans
      (String.empty_append _)).symm
  · intro pre t0 hsse hpre
    subst hsse
    have hdone := processSSE_trailing_done pre t0 hpre ""
    have hF : F = t0 := by
      rw [hdone.1] at hok
      exact (Except.ok.inj hok).symm
    exact ⟨hF, fun hp => by rw [hF]; exact hp⟩

/-- C3 witness: the stream He, llo, DONE yields start, two deltas, end
Hello and new-message Hello, with the delta concatenation equal to the
final text. -/
theorem C3_stream_ordering_witness :
    (sendMentionedBotResponse false 5
      [SSEEvent.delta "He", SSEEvent.delta "llo", SSEEvent.doneMarker]).events =
      [HubEvent.streamStart 5, HubEvent.streamDelta 5 "He" "He",
       HubEvent.streamDelta 5 "llo" "Hello", HubEvent.streamEnd 5 "Hello",
       HubEvent.newMessage 5 "Hello"] ∧
    concatDeltas (processSSE
      [SSEEvent.delta "He", SSEEvent.delta "llo", SSEEvent.doneMarker] "").1 =
      "Hello" := by
  have h := C3_stream_ordering false 5
    [SSEEvent.delta "He", SSEEvent.delta "llo", SSEEvent.doneMarker] "Hello"
    (by rfl) (by decide)
  refine ⟨?_, h.2.2.1 (by intro s hs; simp at hs)⟩
  rw [h.1]
  decide

/-- C3 counterexample: with the upstream stream delta ab then an error
event, the run finalizes with the fixed apology text: the stream-end and
the persisted content are the apology, and the concatenation ab of the
deltas neither equals the final text nor is a prefix of it, refuting the
claim as stated for error runs. -/
theorem C3_counterexample :
    (sendMentionedBotResponse false 9
      [SSEEvent.delta "ab", SSEEvent.errorEv "boom"]).events =
      [HubEvent.streamStart 9, HubEvent.streamDelta 9 "ab" "ab",
       HubEvent.streamEnd 9 apologyText, HubEvent.newMessage 9 apologyText] ∧
    concatDeltas (processSSE [SSEEvent.delta "ab", SSEEvent.errorEv "boom"] "").1 =
      "ab" ∧
    ¬("ab" = apologyText ∨ goHasPrefix apologyText "ab" = true) := by
  decide

/-- C4: a follow-up run whose finalized text lowercased and trimmed is
pass deletes the placeholder row, broadcasts a stream-end with empty
content and broadcasts no new-message event; after its store operations
no row with the placeholder id remains. -/
theorem C4_followup_pass (msgId : Nat) (sse : List SSEEvent)
    (hpass : goTrimSpace (goToLower (finalizedText sse)) = "pass") :
    (sendMentionedBotResponse true msgId sse).events =
      HubEvent.streamStart msgId ::
        (processSSE sse "").1.map (fun p => HubEvent.streamDelta msgId p.1 p.2) ++
        [HubEvent.streamEnd msgId ""] ∧
    (sendMentionedBotResponse true msgId sse).ops =
      [StoreOp.createMessage msgId "", StoreOp.deleteMessage msgId] ∧
    (∀ content, HubEvent.newMessage msgId content ∉
      (sendMentionedBotResponse true msgId sse).events) ∧
    (∀ rows : List (Nat × String),
      ∀ r ∈ applyStoreOps (sendMentionedBotResponse true msgId sse).ops rows,
        r.1 ≠ msgId) := by
  have hcond : (true && (goTrimSpace (goToLower (finalizedText sse)) == "pass")) =
      true := by
    simp [hpass]
  have hrun : sendMentionedBotResponse true msgId sse =
      { events := HubEvent.streamStart msgId ::
          (processSSE sse "").1.map (fun p => HubEvent.streamDelta msgId p.1 p.2) ++
          [HubEvent.streamEnd msgId ""]
        ops := [StoreOp.createMessage msgId "", StoreOp.deleteMessage msgId] } := by
    simp only [sendMentionedBotResponse]
    rw [show (match (processSSE sse "").2 with
      | Except.ok t => t
      | Except.error _ => apologyText) = finalizedText sse from rfl, hcond]
    simp
  refine ⟨by rw [hrun], by rw [hrun], ?_, ?_⟩
  · intro content
    rw [hrun]
    simp
  · intro rows r hr
    rw [hrun] at hr
    simp only [applyStoreOps, List.foldl_cons, List.foldl_nil] at hr
    have := (List.mem_filter.mp hr).2
    simpa using this

/-- C4 witness: a follow-up whose single delta is PaSs with surrounding
spaces deletes the placeholder and keeps only create and delete in the
store operations. -/
theorem C4_followup_pass_witness :
    goTrimSpace (goToLower (finalizedText [SSEEvent.delta " PaSs "])) = "pass" ∧
    (sendMentionedBotResponse true 7 [SSEEvent.delta " PaSs "]).ops =
      [StoreOp.createMessage 7 "", StoreOp.deleteMessage 7] :=
  ⟨by decide, (C4_followup_pass 7 [SSEEvent.delta " PaSs "] (by decide)).2.1⟩

end Smack
